import Mathlib

/-!
Shallow embedding of `jsonl-tweet-hashtags.py`: a single-pass JSONL scanner
that counts hashtag occurrences per input file and prints the top-N table.

Python strings are modelled as Lean `String` (a structure over `List Char`,
matching Python's code-point sequences); Python `int` counters as `Nat`;
`datetime` values as an explicit record of calendar fields; fallible parsing
as `Option`.  Python library functions used by the script (`str.split`,
`str.join`, `str.lower`, `str.strip`, `datetime.strptime`) are modelled by
executable Lean functions defined below, restricted to ASCII case/whitespace
handling and to the fixed `strptime` layouts the script uses.
-/

/-! ## Python string primitives -/

/-- Model of Python `str.split(sep)` for a one-character separator, at the
`List Char` level: keeps empty substrings, never returns `[]`. -/
def splitOnCh (sep : Char) : List Char → List (List Char)
  | [] => [[]]
  | c :: cs =>
    if c = sep then [] :: splitOnCh sep cs
    else
      match splitOnCh sep cs with
      | t :: ts => (c :: t) :: ts
      | [] => [[c]]

/-- Model of Python `sep.join(parts)` for a one-character separator, at the
`List Char` level. -/
def joinWith (sep : Char) : List (List Char) → List Char
  | [] => []
  | [t] => t
  | t :: ts => t ++ sep :: joinWith sep ts

/-- Python `s.split(sep)` on strings (single-character separator). -/
def pySplit (sep : Char) (s : String) : List String :=
  (splitOnCh sep s.data).map String.mk

/-- Python `sep.join(parts)` on strings (single-character separator). -/
def pyJoin (sep : Char) (parts : List String) : String :=
  ⟨joinWith sep (parts.map String.data)⟩

/-- Python `str.lower()` (ASCII case mapping). -/
def pyLower (s : String) : String := ⟨s.data.map Char.toLower⟩

/-- Characters stripped by Python `str.strip()` (ASCII whitespace). -/
def isPySpace (c : Char) : Bool :=
  c = ' ' || c = '\t' || c = '\n' || c = '\r' || c = '\x0b' || c = '\x0c'

/-- Python `str.strip()`: remove leading and trailing whitespace. -/
def pyStrip (s : String) : String :=
  ⟨((s.data.dropWhile isPySpace).reverse.dropWhile isPySpace).reverse⟩

/-- Numeric value of a list of decimal digit characters. -/
def digitsToNat (l : List Char) : Nat :=
  l.foldl (fun n c => n * 10 + (c.toNat - 48)) 0

/-! ## Python datetime model -/

/-- Model of a Python `datetime.datetime`: calendar fields plus an optional
UTC offset in minutes (`none` = naive datetime, as produced by `strptime`
without `%z`). -/
structure PyDateTime where
  year : Nat
  month : Nat
  day : Nat
  hour : Nat
  minute : Nat
  second : Nat
  tzoffset : Option Int := none
deriving Repr, DecidableEq

/-- Python `<` on naive datetimes: lexicographic on the calendar fields.
The script only ever compares naive values (both sides come from `strptime`
without `%z`), so the offset field does not participate. -/
def ltDT (a b : PyDateTime) : Bool :=
  if a.year ≠ b.year then decide (a.year < b.year)
  else if a.month ≠ b.month then decide (a.month < b.month)
  else if a.day ≠ b.day then decide (a.day < b.day)
  else if a.hour ≠ b.hour then decide (a.hour < b.hour)
  else if a.minute ≠ b.minute then decide (a.minute < b.minute)
  else decide (a.second < b.second)

/-! ## strptime models for the three layouts the script uses -/

/-- Lowercased weekday abbreviations accepted by `%a` (strptime matches
case-insensitively). -/
def weekdayAbbrevs : List String :=
  ["mon", "tue", "wed", "thu", "fri", "sat", "sun"]

/-- Lowercased month abbreviations accepted by `%b`, in calendar order. -/
def monthAbbrevs : List String :=
  ["jan", "feb", "mar", "apr", "may", "jun", "jul", "aug", "sep", "oct", "nov", "dec"]

/-- Parse a token as a decimal number of at most `maxLen` digits whose value
lies in `[lo, hi]`; models the bounded numeric fields of `strptime`. -/
def parseNum (maxLen lo hi : Nat) (s : String) : Option Nat :=
  if s.data ≠ [] ∧ s.data.length ≤ maxLen ∧ s.data.all Char.isDigit then
    let n := digitsToNat s.data
    if lo ≤ n ∧ n ≤ hi then some n else none
  else none

/-- Month abbreviation to month number (1-12), case-insensitively. -/
def monthNum (s : String) : Option Nat :=
  match monthAbbrevs.indexOf? (pyLower s) with
  | some i => some (i + 1)
  | none => none

/-- Parse an `HH:MM:SS` token (the `%H:%M:%S` portion of the layout). -/
def parseTimeToken (s : String) : Option (Nat × Nat × Nat) :=
  match pySplit ':' s with
  | [h, m, sec] =>
    match parseNum 2 0 23 h, parseNum 2 0 59 m, parseNum 2 0 59 sec with
    | some hh, some mm, some ss => some (hh, mm, ss)
    | _, _, _ => none
  | _ => none

/-- Parse a `%Y` token: exactly four decimal digits. -/
def parseYear (s : String) : Option Nat :=
  if s.data.length = 4 ∧ s.data.all Char.isDigit then some (digitsToNat s.data)
  else none

/-- Parse a `%z` token of the classic `±HHMM` shape, yielding the UTC offset
in minutes. -/
def parseTzToken (s : String) : Option Int :=
  match s.data with
  | sign :: rest =>
    if (sign = '+' ∨ sign = '-') ∧ rest.length = 4 ∧ rest.all Char.isDigit then
      let hh := digitsToNat (rest.take 2)
      let mm := digitsToNat (rest.drop 2)
      if hh ≤ 23 ∧ mm ≤ 59 then
        some (if sign = '+' then (hh * 60 + mm : Int) else -(hh * 60 + mm : Int))
      else none
    else none
  | [] => none

/-- True in leap years (Gregorian rule), as `datetime` validates dates. -/
def isLeap (y : Nat) : Bool :=
  (y % 4 == 0 && y % 100 != 0) || (y % 400 == 0)

/-- Number of days in a month, used by `datetime`'s date validation. -/
def daysInMonth (y m : Nat) : Nat :=
  if m = 2 then (if isLeap y then 29 else 28)
  else if m = 4 ∨ m = 6 ∨ m = 9 ∨ m = 11 then 30 else 31

/-- Modelled from Python `datetime.strptime` with layout
`'%a %b %d %H:%M:%S %Y'`, at the level of space-separated tokens: weekday
abbreviation, month abbreviation, day (1-2 digits, validated against the
month), `HH:MM:SS`, four-digit year.  Produces a naive datetime
(`tzoffset = none`); any token mismatch is a parse error (`none`). -/
def strptimeNoTzTokens : List String → Option PyDateTime
  | [w, mo, d, tm, y] =>
    if weekdayAbbrevs.contains (pyLower w) then
      match monthNum mo, parseNum 2 1 31 d, parseTimeToken tm, parseYear y with
      | some m, some dd, some (hh, mi, ss), some yy =>
        if dd ≤ daysInMonth yy m then
          some ⟨yy, m, dd, hh, mi, ss, none⟩
        else none
      | _, _, _, _ => none
    else none
  | _ => none

/-- Python `datetime.strptime(s, '%a %b %d %H:%M:%S %Y')` on a string:
split on spaces, then match the token layout. -/
def strptimeNoTz (s : String) : Option PyDateTime :=
  strptimeNoTzTokens (pySplit ' ' s)

/-- Modelled from Python `datetime.strptime` with layout
`'%a %b %d %H:%M:%S %z %Y'`, at token level: as `strptimeNoTzTokens` but
with a `±HHMM` timezone token before the year, recorded in the result's
`tzoffset` (an aware datetime). -/
def strptimeWithTzTokens : List String → Option PyDateTime
  | [w, mo, d, tm, tz, y] =>
    if weekdayAbbrevs.contains (pyLower w) then
      match monthNum mo, parseNum 2 1 31 d, parseTimeToken tm, parseTzToken tz,
            parseYear y with
      | some m, some dd, some (hh, mi, ss), some off, some yy =>
        if dd ≤ daysInMonth yy m then
          some ⟨yy, m, dd, hh, mi, ss, some off⟩
        else none
      | _, _, _, _, _ => none
    else none
  | _ => none

/-- Python `datetime.strptime(s, '%a %b %d %H:%M:%S %z %Y')` on a string. -/
def strptimeWithTz (s : String) : Option PyDateTime :=
  strptimeWithTzTokens (pySplit ' ' s)

/-- Python `datetime.strptime(s, '%Y-%m-%d')`, used by `main` on the
`--start_date` / `--end_date` option values; the time-of-day fields of the
result are zero (midnight). -/
def strptimeYmd (s : String) : Option PyDateTime :=
  match pySplit '-' s with
  | [y, m, d] =>
    match parseYear y, parseNum 2 1 12 m, parseNum 2 1 31 d with
    | some yy, some mm, some dd =>
      if dd ≤ daysInMonth yy mm then some ⟨yy, mm, dd, 0, 0, 0, none⟩ else none
    | _, _, _ => none
  | _ => none

/-! ## parse_twitter_date (source lines 23-29) -/

/-- Embedding of `parse_twitter_date`: in the default mode it splits `s` on
spaces, keeps the first four tokens and the last token (dropping what stands
in between — for the Twitter format, the timezone token), rejoins them with
single spaces and parses with `'%a %b %d %H:%M:%S %Y'`; otherwise it parses
the full string with `'%a %b %d %H:%M:%S %z %Y'`.  Python `parts[-1]` on the
never-empty result of `split` is modelled by `getLastD`. -/
def parse_twitter_date (s : String) (ignore_time_zones : Bool := true) :
    Option PyDateTime :=
  if ignore_time_zones then
    let parts := pySplit ' ' s
    let smodified := pyJoin ' ' (parts.take 4 ++ [parts.getLastD ""])
    strptimeNoTz smodified
  else
    strptimeWithTz s

/-! ## Record model (the JSON fields the script reads) -/

/-- Model of one element of `tweet["entities"]["hashtags"]`: `text = none`
models an entity object without a `"text"` key (indexing it raises and is
caught by the per-line handler). -/
structure Tag where
  text : Option String
deriving Repr, DecidableEq

/-- Model of `tweet["entities"]`: `hashtags = none` models an object without
a `"hashtags"` key (the script tests membership before indexing). -/
structure Entities where
  hashtags : Option (List Tag)
deriving Repr, DecidableEq

/-- Model of one parsed JSON record, keeping only the fields the script
reads; `none` models an absent key. -/
structure Tweet where
  created_at : Option String
  entities : Option Entities
deriving Repr, DecidableEq

/-- Model of one input line after `l.strip()`: blank (skipped before the
`try` block), a line on which `json.loads` raises, or a parsed record. -/
inductive Line
  | blank
  | badJson
  | record (t : Tweet)
deriving Repr, DecidableEq

/-- Configuration distilled from the parsed command-line options: optional
date bounds (already parsed with `'%Y-%m-%d'`) and the `--top` value.
`--top` is an `int` option; the claims concern its nonnegative range,
modelled as `Nat`. -/
structure Config where
  start_date : Option PyDateTime
  end_date : Option PyDateTime
  top : Nat
deriving Repr, DecidableEq

/-- Per-file scanner state: the `counts` defaultdict as an insertion-ordered
association list, the four counters of line 55, and the list of line numbers
at which a progress notice was logged (line 78). -/
structure ScanState where
  counts : List (String × Nat)
  num_tweets : Nat
  num_failed : Nat
  line_number : Nat
  has_hashtags : Nat
  notices : List Nat
deriving Repr, DecidableEq

/-- Fresh state at the start of each file (lines 54-56). -/
def initState : ScanState := ⟨[], 0, 0, 0, 0, []⟩

/-- Hashtag key normalisation of line 74:
`text = "#" + tag["text"].lower().strip()`. -/
def hashtagKey (text : String) : String := "#" ++ pyStrip (pyLower text)

/-- Increment of `counts[text] += 1` on the insertion-ordered association
list: bump an existing key in place, else append it with count 1 (a
`defaultdict(int)` starts absent keys at 0). -/
def bump (counts : List (String × Nat)) (k : String) : List (String × Nat) :=
  match counts with
  | [] => [(k, 1)]
  | (k₀, v) :: rest => if k₀ = k then (k₀, v + 1) :: rest else (k₀, v) :: bump rest k

/-- The loop of lines 73-75 over the hashtag entities.  It stops at the
first entity without a `"text"` key — the `KeyError` propagates to the
per-line handler — returning the counts updated so far and whether it
raised. -/
def countTags : List Tag → List (String × Nat) → List (String × Nat) × Bool
  | [], counts => (counts, false)
  | tag :: rest, counts =>
    match tag.text with
    | none => (counts, true)
    | some t => countTags rest (bump counts (hashtagKey t))

/-- Per-line processing, lines 57-81: blank lines are skipped before the
`try` block; otherwise the line counter advances first, then JSON parsing,
`created_at` extraction, date parsing, the date-range filter (`continue`),
the hashtag loop, the processed counter and the progress notice run in
order, with any raise caught at the end of the line (`num_failed += 1`). -/
def processLine (cfg : Config) (s : ScanState) : Line → ScanState
  | .blank => s
  | .badJson =>
    { s with line_number := s.line_number + 1, num_failed := s.num_failed + 1 }
  | .record t =>
    let ln := s.line_number + 1
    match t.created_at with
    | none => { s with line_number := ln, num_failed := s.num_failed + 1 }
    | some ca =>
      match parse_twitter_date ca with
      | none => { s with line_number := ln, num_failed := s.num_failed + 1 }
      | some sdate =>
        if (cfg.start_date.elim false (fun d => ltDT sdate d)) ||
           (cfg.end_date.elim false (fun d => ltDT d sdate)) then
          { s with line_number := ln }
        else
          match t.entities with
          | none =>
            { s with line_number := ln, num_tweets := s.num_tweets + 1,
                     notices := if ln % 50000 = 0 then s.notices ++ [ln] else s.notices }
          | some ents =>
            match ents.hashtags with
            | none =>
              { s with line_number := ln, num_tweets := s.num_tweets + 1,
                       notices := if ln % 50000 = 0 then s.notices ++ [ln] else s.notices }
            | some tags =>
              if tags.length > 0 then
                match countTags tags s.counts with
                | (counts₁, true) =>
                  { s with line_number := ln, has_hashtags := s.has_hashtags + 1,
                           counts := counts₁, num_failed := s.num_failed + 1 }
                | (counts₁, false) =>
                  { s with line_number := ln, has_hashtags := s.has_hashtags + 1,
                           counts := counts₁, num_tweets := s.num_tweets + 1,
                           notices := if ln % 50000 = 0 then s.notices ++ [ln]
                                      else s.notices }
              else
                { s with line_number := ln, num_tweets := s.num_tweets + 1,
                         notices := if ln % 50000 = 0 then s.notices ++ [ln]
                                    else s.notices }

/-- The scan loop over a file's (stripped) lines, lines 57-82. -/
def scanLines (cfg : Config) : List Line → ScanState → ScanState
  | [], s => s
  | l :: rest, s => scanLines cfg rest (processLine cfg s l)

/-- Scan of one whole file from the fresh state. -/
def scanFile (cfg : Config) (ls : List Line) : ScanState :=
  scanLines cfg ls initState

/-! ## Reporting (source lines 86-95) -/

/-- Insertion of one counts entry into a list already sorted by descending
count, after every entry with a strictly greater count (so equal counts keep
their existing order). -/
def insertDesc (p : String × Nat) : List (String × Nat) → List (String × Nat)
  | [] => [p]
  | q :: rest => if q.2 > p.2 then q :: insertDesc p rest else p :: q :: rest

/-- Model of `sorted(counts.items(), key=operator.itemgetter(1),
reverse=True)`: Python's `sorted` contract for this call is a stable sort
placing higher counts first; an insertion sort realises that contract
executably. -/
def sortDesc : List (String × Nat) → List (String × Nat)
  | [] => []
  | p :: rest => insertDesc p (sortDesc rest)

/-- The display loop of lines 91-94 over the sorted pairs: rows are added
until the 0-based index `i` satisfies `i > top`, then the loop breaks. -/
def displayLoop (top : Nat) : Nat → List (String × Nat) → List (String × Nat)
  | _, [] => []
  | i, p :: rest => if i > top then [] else p :: displayLoop top (i + 1) rest

/-- Data rows of the PrettyTable built for a file (header "Hashtag"/"Count"
excluded): the display loop run over the descending-sorted counts from
index 0. -/
def tableRows (cfg : Config) (counts : List (String × Nat)) : List (String × Nat) :=
  displayLoop cfg.top 0 (sortDesc counts)

/-! ## Derived notions used by the claims -/

/-- Total of all counts in the mapping. -/
def countsTotal (counts : List (String × Nat)) : Nat := (counts.map (·.2)).sum

/-- Number of hashtag entries carried by a record (length of
`entities.hashtags` when present). -/
def entryCount (t : Tweet) : Nat :=
  match t.entities with
  | none => 0
  | some ents =>
    match ents.hashtags with
    | none => 0
    | some tags => tags.length

/-- Whether the date-range filter of line 67 passes the record's parsed
date (true = the record is kept). -/
def passesFilter (cfg : Config) (d : PyDateTime) : Bool :=
  !((cfg.start_date.elim false (fun b => ltDT d b)) ||
    (cfg.end_date.elim false (fun b => ltDT b d)))

/-- Hashtag entity list of a record: `entities.hashtags` when both keys are
present, else empty. -/
def tagsOf (t : Tweet) : List Tag :=
  match t.entities with
  | none => []
  | some ents =>
    match ents.hashtags with
    | none => []
    | some tags => tags

/-- Every hashtag entity of the record has a `"text"` key, so the loop of
lines 73-75 runs to completion. -/
def tagsOK (t : Tweet) : Prop := ∀ tag ∈ tagsOf t, tag.text ≠ none

/-- A record every field of which processes without raising: `created_at`
present and parseable, and every hashtag entity has a `"text"` key. -/
def recordOK (t : Tweet) : Prop :=
  (∃ ca d, t.created_at = some ca ∧ parse_twitter_date ca = some d) ∧ tagsOK t

/-- A line whose whole processing succeeds or is skipped cleanly: blank,
malformed JSON (fails before touching counts), or a fully-valid record. -/
def lineOK : Line → Prop
  | .blank => True
  | .badJson => True
  | .record t => recordOK t

/-- Configuration with no date bounds and the default `--top` of 10. -/
def cfgNoBounds : Config := ⟨none, none, 10⟩

/-- Sample Twitter-format timestamp used by concrete instances. -/
def sampleDate : String := "Mon Jan 01 10:00:00 +0000 2024"

/-- Valid record with no `entities` key: processed, counted, no hashtags. -/
def goodNoTagLine : Line := .record ⟨some sampleDate, none⟩

/-- Parsed value of `sampleDate` under the default (timezone-dropping) mode. -/
def sampleDT : PyDateTime := ⟨2024, 1, 1, 10, 0, 0, none⟩

/-- Record whose hashtag list fails mid-loop: the first entity is counted,
then the second entity has no `"text"` key and raises. -/
def badTagTweet : Tweet := ⟨some sampleDate, some ⟨some [⟨some "a"⟩, ⟨none⟩]⟩⟩

/-- Second mid-loop-failure record, with a different hashtag text. -/
def badTagTweetX : Tweet := ⟨some sampleDate, some ⟨some [⟨some "x"⟩, ⟨none⟩]⟩⟩

/-- A line that is blank or raises before reaching the hashtag loop
(bad JSON, missing `created_at`, unparseable date). -/
def failsBeforeTags : Line → Prop
  | .blank => True
  | .badJson => True
  | .record t =>
    t.created_at = none ∨
    (∃ ca, t.created_at = some ca ∧ parse_twitter_date ca = none)

/-- Hashtag entries a fully-valid record contributes under a configuration:
its entry count when the date filter passes, otherwise zero. -/
def lineEntries (cfg : Config) : Line → Nat
  | .blank => 0
  | .badJson => 0
  | .record t =>
    match t.created_at with
    | none => 0
    | some ca =>
      match parse_twitter_date ca with
      | none => 0
      | some d => if passesFilter cfg d then entryCount t else 0

/-! ## Lemmas on the reporting step -/

lemma insertDesc_perm (p : String × Nat) (l : List (String × Nat)) :
    (insertDesc p l).Perm (p :: l) := by
  induction l with
  | nil => simp [insertDesc]
  | cons q rest ih =>
    simp only [insertDesc]
    split
    · exact (ih.cons q).trans (List.Perm.swap p q rest)
    · exact List.Perm.refl _

lemma sortDesc_perm (l : List (String × Nat)) : (sortDesc l).Perm l := by
  induction l with
  | nil => exact List.Perm.refl _
  | cons p rest ih =>
    exact (insertDesc_perm p (sortDesc rest)).trans (ih.cons p)

lemma pairwise_insertDesc (p : String × Nat) (l : List (String × Nat))
    (h : l.Pairwise (fun a b => b.2 ≤ a.2)) :
    (insertDesc p l).Pairwise (fun a b => b.2 ≤ a.2) := by
  induction l with
  | nil => simp [insertDesc]
  | cons q rest ih =>
    rw [List.pairwise_cons] at h
    obtain ⟨hq, hrest⟩ := h
    simp only [insertDesc]
    split
    · next hgt =>
      rw [List.pairwise_cons]
      refine ⟨?_, ih hrest⟩
      intro x hx
      rcases List.mem_cons.mp ((insertDesc_perm p rest).mem_iff.mp hx) with rfl | hx
      · omega
      · exact hq x hx
    · next hle =>
      rw [List.pairwise_cons]
      refine ⟨?_, List.Pairwise.cons hq hrest⟩
      intro x hx
      rcases List.mem_cons.mp hx with rfl | hx
      · omega
      · have := hq x hx
        omega

lemma sortDesc_sorted (l : List (String × Nat)) :
    (sortDesc l).Pairwise (fun a b => b.2 ≤ a.2) := by
  induction l with
  | nil => simp [sortDesc]
  | cons p rest ih => exact pairwise_insertDesc p (sortDesc rest) ih

lemma displayLoop_eq_take (top : Nat) (l : List (String × Nat)) :
    ∀ i : Nat, displayLoop top i l = l.take (top + 1 - i) := by
  induction l with
  | nil => intro i; simp [displayLoop]
  | cons p rest ih =>
    intro i
    simp only [displayLoop]
    split
    · next h =>
      have h0 : top + 1 - i = 0 := by omega
      simp [h0]
    · next h =>
      have h2 : top + 1 - i = (top - i) + 1 := by omega
      have h3 : top + 1 - (i + 1) = top - i := by omega
      rw [h2, List.take_succ_cons, ih (i + 1), h3]

/-- C1: for every file, Reporting sorts the accumulated counts in descending
order by count and displays rows with a loop that breaks only when the
0-based index `i` satisfies `i > top`, so the table carries exactly the first
`top + 1` sorted pairs: `min(D, top + 1)` data rows for `D` distinct
hashtags — one extra row beyond `top` whenever `D > top`. -/
theorem topn_rows_spec (cfg : Config) (counts : List (String × Nat)) :
    (sortDesc counts).Perm counts ∧
    (sortDesc counts).Pairwise (fun a b => b.2 ≤ a.2) ∧
    tableRows cfg counts = (sortDesc counts).take (cfg.top + 1) ∧
    (tableRows cfg counts).length = min counts.length (cfg.top + 1) := by
  refine ⟨sortDesc_perm counts, sortDesc_sorted counts, ?_, ?_⟩
  · unfold tableRows
    rw [displayLoop_eq_take]
    norm_num
  · unfold tableRows
    rw [displayLoop_eq_take, Nat.sub_zero, List.length_take,
        (sortDesc_perm counts).length_eq, Nat.min_comm]

/-- C8: a blank line is skipped silently before the `try` block: the whole
scanner state — counts, failure counter, line counter, processed counter,
progress notices — is left unchanged. -/
theorem blank_line_noop (cfg : Config) (s : ScanState) :
    processLine cfg s Line.blank = s := rfl

/-! ## Lemmas on the scanner -/

lemma ltDT_irrefl (a : PyDateTime) : ltDT a a = false := by
  simp [ltDT]

lemma bump_total (c : List (String × Nat)) (k : String) :
    countsTotal (bump c k) = countsTotal c + 1 := by
  induction c with
  | nil => simp [bump, countsTotal]
  | cons q rest ih =>
    obtain ⟨k₀, v⟩ := q
    simp only [bump]
    split
    · simp [countsTotal]
      omega
    · simp only [countsTotal, List.map_cons, List.sum_cons] at ih ⊢
      omega

lemma countTags_ok (tags : List Tag) (h : ∀ tag ∈ tags, tag.text ≠ none)
    (c : List (String × Nat)) :
    (countTags tags c).2 = false ∧
    countsTotal (countTags tags c).1 = countsTotal c + tags.length := by
  induction tags generalizing c with
  | nil => simp [countTags]
  | cons tag rest ih =>
    cases htext : tag.text with
    | none => exact absurd htext (h tag (List.mem_cons_self tag rest))
    | some t =>
      simp only [countTags, htext]
      have hrest := ih (fun tg htg => h tg (List.mem_cons_of_mem _ htg))
        (bump c (hashtagKey t))
      rw [bump_total] at hrest
      refine ⟨hrest.1, ?_⟩
      rw [hrest.2]
      simp
      omega

lemma processLine_badJson (cfg : Config) (s : ScanState) :
    processLine cfg s Line.badJson =
      { s with line_number := s.line_number + 1, num_failed := s.num_failed + 1 } := rfl

lemma processLine_noDate (cfg : Config) (s : ScanState) (oents : Option Entities) :
    processLine cfg s (.record ⟨none, oents⟩) =
      { s with line_number := s.line_number + 1, num_failed := s.num_failed + 1 } := rfl

lemma processLine_badDate (cfg : Config) (s : ScanState) (ca : String)
    (oents : Option Entities) (h2 : parse_twitter_date ca = none) :
    processLine cfg s (.record ⟨some ca, oents⟩) =
      { s with line_number := s.line_number + 1, num_failed := s.num_failed + 1 } := by
  simp only [processLine, h2]

lemma processLine_filtered (cfg : Config) (s : ScanState) (ca : String)
    (oents : Option Entities) (d : PyDateTime) (h2 : parse_twitter_date ca = some d)
    (hf : passesFilter cfg d = false) :
    processLine cfg s (.record ⟨some ca, oents⟩) =
      { s with line_number := s.line_number + 1 } := by
  have hcond : ((cfg.start_date.elim false fun b => ltDT d b) ||
      (cfg.end_date.elim false fun b => ltDT b d)) = true := by
    rcases Bool.eq_false_or_eq_true ((cfg.start_date.elim false fun b => ltDT d b) ||
      (cfg.end_date.elim false fun b => ltDT b d)) with h | h
    · exact h
    · exfalso
      unfold passesFilter at hf
      rw [h] at hf
      simp at hf
  simp only [processLine, h2, hcond, if_true]

lemma scanLines_cons (cfg : Config) (l : Line) (rest : List Line) (s : ScanState) :
    scanLines cfg (l :: rest) s = scanLines cfg rest (processLine cfg s l) := rfl

lemma scanLines_append (cfg : Config) (a b : List Line) (s : ScanState) :
    scanLines cfg (a ++ b) s = scanLines cfg b (scanLines cfg a s) := by
  induction a generalizing s with
  | nil => rfl
  | cons l rest ih =>
    simp only [List.cons_append, scanLines]
    exact ih _

lemma passesFilter_cond (cfg : Config) (d : PyDateTime)
    (hf : passesFilter cfg d = true) :
    ((cfg.start_date.elim false fun b => ltDT d b) ||
      (cfg.end_date.elim false fun b => ltDT b d)) = false := by
  rcases Bool.eq_false_or_eq_true ((cfg.start_date.elim false fun b => ltDT d b) ||
    (cfg.end_date.elim false fun b => ltDT b d)) with h | h
  · exfalso
    unfold passesFilter at hf
    rw [h] at hf
    simp at hf
  · exact h

lemma processLine_kept (cfg : Config) (s : ScanState) (ca : String)
    (oents : Option Entities) (d : PyDateTime) (h2 : parse_twitter_date ca = some d)
    (hf : passesFilter cfg d = true) (ht : tagsOK ⟨some ca, oents⟩) :
    processLine cfg s (.record ⟨some ca, oents⟩) =
      { s with line_number := s.line_number + 1,
               counts := (countTags (tagsOf ⟨some ca, oents⟩) s.counts).1,
               num_tweets := s.num_tweets + 1,
               has_hashtags := s.has_hashtags +
                 (if 0 < (tagsOf ⟨some ca, oents⟩).length then 1 else 0),
               notices := if (s.line_number + 1) % 50000 = 0
                          then s.notices ++ [s.line_number + 1] else s.notices } := by
  have hcond := passesFilter_cond cfg d hf
  simp only [processLine, h2, hcond, Bool.false_eq_true, if_false]
  cases oents with
  | none => simp [tagsOf, countTags]
  | some ents =>
    cases hhh : ents.hashtags with
    | none => simp [tagsOf, hhh, countTags]
    | some tags =>
      cases tags with
      | nil => simp [tagsOf, hhh, countTags]
      | cons tag rest =>
        unfold tagsOK at ht
        simp only [tagsOf, hhh] at ht ⊢
        rcases hct : countTags (tag :: rest) s.counts with ⟨c₁, flag⟩
        have hflag := (countTags_ok (tag :: rest) ht s.counts).1
        rw [hct] at hflag
        simp only at hflag
        subst hflag
        simp [hct]

lemma processLine_tagfail (cfg : Config) (s : ScanState) (ca : String)
    (ents : Entities) (tags : List Tag) (d : PyDateTime) (c₁ : List (String × Nat))
    (h2 : parse_twitter_date ca = some d) (hf : passesFilter cfg d = true)
    (hhh : ents.hashtags = some tags)
    (hct : countTags tags s.counts = (c₁, true)) :
    processLine cfg s (.record ⟨some ca, some ents⟩) =
      { s with line_number := s.line_number + 1,
               has_hashtags := s.has_hashtags + 1,
               counts := c₁,
               num_failed := s.num_failed + 1 } := by
  have hcond := passesFilter_cond cfg d hf
  have htagsne : tags ≠ [] := by
    intro hnil
    subst hnil
    simp [countTags] at hct
  simp only [processLine, h2, hcond, Bool.false_eq_true, if_false, hhh]
  cases tags with
  | nil => exact absurd rfl htagsne
  | cons tag rest => simp [hct]

/-- C3: a record whose parsed `created_at` is strictly before the configured
start date or strictly after the configured end date is skipped by the
`continue` of line 68: the whole state except the line counter — counts and
the processed counter included — is unchanged; both bounds are inclusive (a
record whose date equals them is processed and counted), and omitted bounds
are unbounded. -/
theorem date_filter_spec (cfg : Config) (s : ScanState) (t : Tweet) (ca : String)
    (d : PyDateTime) (h1 : t.created_at = some ca)
    (h2 : parse_twitter_date ca = some d) :
    (∀ sd, cfg.start_date = some sd → ltDT d sd = true →
      processLine cfg s (.record t) = { s with line_number := s.line_number + 1 }) ∧
    (∀ ed, cfg.end_date = some ed → ltDT ed d = true →
      processLine cfg s (.record t) = { s with line_number := s.line_number + 1 }) ∧
    (cfg.start_date = some d → cfg.end_date = some d → tagsOK t →
      (processLine cfg s (.record t)).num_tweets = s.num_tweets + 1) ∧
    (cfg.start_date = none → cfg.end_date = none → tagsOK t →
      (processLine cfg s (.record t)).num_tweets = s.num_tweets + 1) := by
  obtain ⟨oca, oents⟩ := t
  have h1' : oca = some ca := h1
  subst h1'
  refine ⟨?_, ?_, ?_, ?_⟩
  · intro sd hsd hlt
    exact processLine_filtered cfg s ca oents d h2 (by simp [passesFilter, hsd, hlt])
  · intro ed hed hlt
    exact processLine_filtered cfg s ca oents d h2 (by simp [passesFilter, hed, hlt])
  · intro hs he ht
    rw [processLine_kept cfg s ca oents d h2
      (by simp [passesFilter, hs, he, ltDT_irrefl]) ht]
  · intro hs he ht
    rw [processLine_kept cfg s ca oents d h2 (by simp [passesFilter, hs, he]) ht]

/-- Witness for the date-filter theorem: with both bounds equal to the
record's parsed timestamp, the concrete record is still counted. -/
theorem date_filter_witness :
    (processLine ⟨some sampleDT, some sampleDT, 10⟩ initState
      (.record ⟨some sampleDate, none⟩)).num_tweets = 1 := by
  have h := (date_filter_spec ⟨some sampleDT, some sampleDT, 10⟩ initState
      ⟨some sampleDate, none⟩ sampleDate sampleDT rfl (by decide)).2.2.1
  have h2 := h rfl rfl (by intro tag htag; simp [tagsOf] at htag)
  simpa [initState] using h2

lemma entryCount_eq (t : Tweet) : entryCount t = (tagsOf t).length := by
  obtain ⟨oca, oents⟩ := t
  cases oents with
  | none => rfl
  | some ents =>
    cases hhh : ents.hashtags with
    | none => simp [entryCount, tagsOf, hhh]
    | some tags => simp [entryCount, tagsOf, hhh]

lemma processLine_total (cfg : Config) (s : ScanState) (l : Line) (hl : lineOK l) :
    countsTotal (processLine cfg s l).counts =
      countsTotal s.counts + lineEntries cfg l := by
  cases l with
  | blank => simp [processLine, lineEntries]
  | badJson => rw [processLine_badJson]; simp [lineEntries]
  | record t =>
    obtain ⟨oca, oents⟩ := t
    obtain ⟨⟨ca, d, h1, h2⟩, ht⟩ := hl
    have h1' : oca = some ca := h1
    subst h1'
    rcases Bool.eq_false_or_eq_true (passesFilter cfg d) with hpf | hpf
    · rw [processLine_kept cfg s ca oents d h2 hpf ht]
      show countsTotal (countTags (tagsOf ⟨some ca, oents⟩) s.counts).1 =
        countsTotal s.counts + lineEntries cfg (.record ⟨some ca, oents⟩)
      rw [(countTags_ok (tagsOf ⟨some ca, oents⟩) ht s.counts).2]
      congr 1
      simp [lineEntries, h2, hpf, entryCount_eq]
    · rw [processLine_filtered cfg s ca oents d h2 hpf]
      simp [lineEntries, h2, hpf]

lemma scan_total (cfg : Config) (lines : List Line) :
    ∀ s : ScanState, (∀ l ∈ lines, lineOK l) →
      countsTotal (scanLines cfg lines s).counts =
        countsTotal s.counts + (lines.map (lineEntries cfg)).sum := by
  induction lines with
  | nil => intro s _; simp [scanLines]
  | cons l rest ih =>
    intro s h
    rw [scanLines_cons, ih (processLine cfg s l)
        (fun x hx => h x (List.mem_cons_of_mem _ hx)),
      processLine_total cfg s l (h l (List.mem_cons_self l rest))]
    simp
    omega

/-- C5: when every line of the file is blank, malformed JSON, or a
fully-valid record, the sum of all counts after the scan equals the total
number of hashtag entries over the records not filtered out by the date
range. -/
theorem counts_sum_invariant (cfg : Config) (lines : List Line)
    (h : ∀ l ∈ lines, lineOK l) :
    countsTotal (scanFile cfg lines).counts =
      (lines.map (lineEntries cfg)).sum := by
  unfold scanFile
  rw [scan_total cfg lines initState h]
  simp [initState, countsTotal]

/-- Witness for the counts-sum invariant on a concrete four-line file. -/
theorem counts_sum_invariant_witness :
    countsTotal (scanFile cfgNoBounds
      [goodNoTagLine,
       .record ⟨some sampleDate, some ⟨some [⟨some "A"⟩, ⟨some "a"⟩]⟩⟩,
       .blank, .badJson]).counts = 2 := by
  have h : ∀ l ∈ ([goodNoTagLine,
      .record ⟨some sampleDate, some ⟨some [⟨some "A"⟩, ⟨some "a"⟩]⟩⟩,
      .blank, .badJson] : List Line), lineOK l := by
    intro l hl
    fin_cases hl
    · exact ⟨⟨sampleDate, sampleDT, rfl, by decide⟩,
        by intro tag htag; simp [tagsOf] at htag⟩
    · refine ⟨⟨sampleDate, sampleDT, rfl, by decide⟩, ?_⟩
      intro tag htag
      simp [tagsOf] at htag
      rcases htag with rfl | rfl <;> simp
    · trivial
    · trivial
  rw [counts_sum_invariant cfgNoBounds _ h]
  decide

/-- C4 (amended): every failing line increments the failure counter,
advances the line counter, leaves the processed counter alone, and the scan
continues with the next line; a failure hit before hashtag extraction
(malformed JSON, missing `created_at`, unparseable date) leaves the counts
mapping unchanged, while a failure inside the hashtag loop retains the
entries counted before the raise. -/
theorem line_failure_spec (cfg : Config) (s : ScanState) :
    (processLine cfg s .badJson =
      { s with line_number := s.line_number + 1, num_failed := s.num_failed + 1 }) ∧
    (∀ oents, processLine cfg s (.record ⟨none, oents⟩) =
      { s with line_number := s.line_number + 1, num_failed := s.num_failed + 1 }) ∧
    (∀ ca oents, parse_twitter_date ca = none →
      processLine cfg s (.record ⟨some ca, oents⟩) =
        { s with line_number := s.line_number + 1, num_failed := s.num_failed + 1 }) ∧
    (∀ ca ents tags d c₁, parse_twitter_date ca = some d →
      passesFilter cfg d = true → ents.hashtags = some tags →
      countTags tags s.counts = (c₁, true) →
      processLine cfg s (.record ⟨some ca, some ents⟩) =
        { s with line_number := s.line_number + 1,
                 has_hashtags := s.has_hashtags + 1,
                 counts := c₁,
                 num_failed := s.num_failed + 1 }) ∧
    (∀ l rest, scanLines cfg (l :: rest) s = scanLines cfg rest (processLine cfg s l)) := by
  refine ⟨rfl, fun _ => rfl, ?_, ?_, fun _ _ => rfl⟩
  · intro ca oents h2
    exact processLine_badDate cfg s ca oents h2
  · intro ca ents tags d c₁ h2 hf hhh hct
    exact processLine_tagfail cfg s ca ents tags d c₁ h2 hf hhh hct

/-- Counterexample to C4 as stated: on a line that fails (the second hashtag
entity has no `"text"` key), the failure counter increments but the counts
mapping is NOT left unchanged — the first entity was already counted. -/
theorem line_failure_counterexample :
    (processLine cfgNoBounds initState (.record badTagTweet)).num_failed = 1 ∧
    (processLine cfgNoBounds initState (.record badTagTweet)).counts = [("#a", 1)] ∧
    (processLine cfgNoBounds initState (.record badTagTweet)).counts ≠
      initState.counts := by
  refine ⟨rfl, rfl, ?_⟩
  decide

/-- Witness for the line-failure theorem at concrete inputs. -/
theorem line_failure_witness :
    processLine cfgNoBounds initState (.record ⟨some "no date", none⟩) =
      { initState with line_number := 1, num_failed := 1 } := by
  exact (line_failure_spec cfgNoBounds initState).2.2.1 "no date" none (by decide)

lemma scan_noValid (cfg : Config) (lines : List Line) :
    ∀ s, (∀ l ∈ lines, failsBeforeTags l) →
      (scanLines cfg lines s).counts = s.counts ∧
      (scanLines cfg lines s).num_tweets = s.num_tweets := by
  induction lines with
  | nil => intro s _; exact ⟨rfl, rfl⟩
  | cons l rest ih =>
    intro s h
    rw [scanLines_cons]
    have hl := h l (List.mem_cons_self l rest)
    have hrest := ih (processLine cfg s l) (fun x hx => h x (List.mem_cons_of_mem _ hx))
    have hpl : (processLine cfg s l).counts = s.counts ∧
        (processLine cfg s l).num_tweets = s.num_tweets := by
      cases l with
      | blank => exact ⟨rfl, rfl⟩
      | badJson => exact ⟨rfl, rfl⟩
      | record t =>
        obtain ⟨oca, oents⟩ := t
        unfold failsBeforeTags at hl
        rcases hl with hnone | ⟨ca, hca, hparse⟩
        · have hnone' : oca = none := hnone
          subst hnone'
          rw [processLine_noDate]
          exact ⟨rfl, rfl⟩
        · have hca' : oca = some ca := hca
          subst hca'
          rw [processLine_badDate cfg s ca oents hparse]
          exact ⟨rfl, rfl⟩
    exact ⟨hpl.1 ▸ hrest.1, hpl.2 ▸ hrest.2⟩

/-- C9 (amended): for a file with zero valid lines in which every failure
occurs before hashtag extraction, the reported totals are zero — no
processed records, no distinct hashtags — and the rendered table has no data
rows (only the header). -/
theorem empty_scan_spec (cfg : Config) (lines : List Line)
    (h : ∀ l ∈ lines, failsBeforeTags l) :
    (scanFile cfg lines).num_tweets = 0 ∧
    (scanFile cfg lines).counts.length = 0 ∧
    tableRows cfg (scanFile cfg lines).counts = [] := by
  have hs := scan_noValid cfg lines initState h
  unfold scanFile at hs ⊢
  rw [hs.1, hs.2]
  exact ⟨rfl, rfl, rfl⟩

/-- Witness for the zero-valid-lines theorem on a concrete file of a blank
line, a malformed line and a record lacking `created_at`. -/
theorem empty_scan_witness :
    (scanFile cfgNoBounds [.blank, .badJson, .record ⟨none, none⟩]).num_tweets = 0 ∧
    (scanFile cfgNoBounds [.blank, .badJson, .record ⟨none, none⟩]).counts.length = 0 ∧
    tableRows cfgNoBounds
      (scanFile cfgNoBounds [.blank, .badJson, .record ⟨none, none⟩]).counts = [] := by
  apply empty_scan_spec
  intro l hl
  fin_cases hl
  · trivial
  · trivial
  · exact Or.inl rfl

/-- Counterexample to C9 as stated: a one-line file with zero valid lines
(its only line fails) whose failure happens inside the hashtag loop leaves a
nonempty counts mapping and a data row in the table. -/
theorem empty_scan_counterexample :
    (scanFile cfgNoBounds [.record badTagTweetX]).num_tweets = 0 ∧
    (scanFile cfgNoBounds [.record badTagTweetX]).num_failed = 1 ∧
    (scanFile cfgNoBounds [.record badTagTweetX]).counts.length = 1 ∧
    tableRows cfgNoBounds (scanFile cfgNoBounds [.record badTagTweetX]).counts =
      [("#x", 1)] := by
  refine ⟨rfl, rfl, rfl, ?_⟩
  decide

lemma processLine_goodNoTag (c : List (String × Nat)) (a b ln h : Nat) (no : List Nat)
    (hln : (ln + 1) % 50000 ≠ 0) :
    processLine cfgNoBounds ⟨c, a, b, ln, h, no⟩ goodNoTagLine =
      ⟨c, a + 1, b, ln + 1, h, no⟩ := by
  show (⟨c, a + 1, b, ln + 1, h,
      if (ln + 1) % 50000 = 0 then no ++ [ln + 1] else no⟩ : ScanState) = _
  rw [if_neg hln]

lemma scan_goodNoTag (n : Nat) :
    ∀ (c : List (String × Nat)) (a b ln h : Nat) (no : List Nat), ln + n < 50000 →
      scanLines cfgNoBounds (List.replicate n goodNoTagLine) ⟨c, a, b, ln, h, no⟩ =
        ⟨c, a + n, b, ln + n, h, no⟩ := by
  induction n with
  | zero => intro c a b ln h no _; simp [scanLines]
  | succ n ih =>
    intro c a b ln h no hlt
    rw [List.replicate_succ, scanLines_cons,
        processLine_goodNoTag c a b ln h no (by omega)]
    rw [ih c (a + 1) b (ln + 1) h no (by omega)]
    have e1 : a + 1 + n = a + (n + 1) := by omega
    have e2 : ln + 1 + n = ln + (n + 1) := by omega
    rw [e1, e2]

/-- C7 (amended): a progress notice is emitted exactly when a line is parsed
successfully, passes the date filter and completes its hashtag loop, and the
advanced line counter is a multiple of 50,000; blank, date-filtered and
failing lines never emit a notice — even when the counter reaches a multiple
of 50,000 on them. -/
theorem progress_notice_spec (cfg : Config) (s : ScanState) :
    (∀ t ca d, t.created_at = some ca → parse_twitter_date ca = some d →
      passesFilter cfg d = true → tagsOK t →
      (processLine cfg s (.record t)).notices =
        (if (s.line_number + 1) % 50000 = 0 then s.notices ++ [s.line_number + 1]
         else s.notices)) ∧
    ((processLine cfg s .blank).notices = s.notices) ∧
    ((processLine cfg s .badJson).notices = s.notices) ∧
    (∀ t ca d, t.created_at = some ca → parse_twitter_date ca = some d →
      passesFilter cfg d = false →
      (processLine cfg s (.record t)).notices = s.notices) ∧
    (∀ ca ents tags d c₁, parse_twitter_date ca = some d →
      passesFilter cfg d = true → ents.hashtags = some tags →
      countTags tags s.counts = (c₁, true) →
      (processLine cfg s (.record ⟨some ca, some ents⟩)).notices = s.notices) := by
  refine ⟨?_, rfl, rfl, ?_, ?_⟩
  · intro t ca d h1 h2 hf ht
    obtain ⟨oca, oents⟩ := t
    have h1' : oca = some ca := h1
    subst h1'
    rw [processLine_kept cfg s ca oents d h2 hf ht]
  · intro t ca d h1 h2 hf
    obtain ⟨oca, oents⟩ := t
    have h1' : oca = some ca := h1
    subst h1'
    rw [processLine_filtered cfg s ca oents d h2 hf]
  · intro ca ents tags d c₁ h2 hf hhh hct
    rw [processLine_tagfail cfg s ca ents tags d c₁ h2 hf hhh hct]

/-- Witness for the progress-notice theorem: a successfully processed line
whose advanced line counter is exactly 50,000 appends a notice. -/
theorem progress_notice_witness :
    (processLine cfgNoBounds ⟨[], 49999, 0, 49999, 0, []⟩
      (.record ⟨some sampleDate, none⟩)).notices = [50000] := by
  have h := (progress_notice_spec cfgNoBounds ⟨[], 49999, 0, 49999, 0, []⟩).1
    ⟨some sampleDate, none⟩ sampleDate sampleDT rfl (by decide) (by decide)
    (by intro tag htag; simp [tagsOf] at htag)
  simpa using h

/-- Counterexample to C7 as stated: in a 50,000-line file whose last line is
malformed, the line counter reaches the multiple 50,000 on that (non-blank)
line, yet no progress notice is emitted at all. -/
theorem progress_notice_counterexample :
    (scanFile cfgNoBounds
      (List.replicate 49999 goodNoTagLine ++ [Line.badJson])).line_number = 50000 ∧
    (scanFile cfgNoBounds
      (List.replicate 49999 goodNoTagLine ++ [Line.badJson])).notices = [] := by
  unfold scanFile initState
  rw [scanLines_append, scan_goodNoTag 49999 [] 0 0 0 0 [] (by omega)]
  exact ⟨rfl, rfl⟩

/-- C2: the stored key for every counted hashtag entity is `"#"` followed by
the lowercased, whitespace-trimmed entity text, so counting is
case-insensitive: two entities whose texts agree up to letter case bump the
same key, and a two-record file with case-variant texts yields a single
entry of count 2. -/
theorem hashtag_key_spec (t₁ t₂ : String) (h : pyLower t₁ = pyLower t₂) :
    (∀ text : String, hashtagKey text = "#" ++ pyStrip (pyLower text)) ∧
    (∀ (tag : Tag) (rest : List Tag) (c : List (String × Nat)) (text : String),
      tag.text = some text →
      countTags (tag :: rest) c = countTags rest (bump c (hashtagKey text))) ∧
    hashtagKey t₁ = hashtagKey t₂ ∧
    (scanFile cfgNoBounds
        [.record ⟨some sampleDate, some ⟨some [⟨some t₁⟩]⟩⟩,
         .record ⟨some sampleDate, some ⟨some [⟨some t₂⟩]⟩⟩]).counts =
      [(hashtagKey t₁, 2)] := by
  have hk : hashtagKey t₂ = hashtagKey t₁ := by
    unfold hashtagKey
    rw [h]
  refine ⟨fun _ => rfl, ?_, hk.symm, ?_⟩
  · intro tag rest c text htext
    simp [countTags, htext]
  · have s1 : processLine cfgNoBounds initState
        (.record ⟨some sampleDate, some ⟨some [⟨some t₁⟩]⟩⟩) =
        ⟨[(hashtagKey t₁, 1)], 1, 0, 1, 1, []⟩ := rfl
    show (processLine cfgNoBounds (processLine cfgNoBounds initState
        (.record ⟨some sampleDate, some ⟨some [⟨some t₁⟩]⟩⟩))
        (.record ⟨some sampleDate, some ⟨some [⟨some t₂⟩]⟩⟩)).counts =
      [(hashtagKey t₁, 2)]
    rw [s1]
    show bump [(hashtagKey t₁, 1)] (hashtagKey t₂) = [(hashtagKey t₁, 2)]
    rw [hk]
    simp [bump]

/-- Witness for the hashtag-key theorem at the case pair "ABC" / "abc". -/
theorem hashtag_key_witness :
    (scanFile cfgNoBounds
        [.record ⟨some sampleDate, some ⟨some [⟨some "ABC"⟩]⟩⟩,
         .record ⟨some sampleDate, some ⟨some [⟨some "abc"⟩]⟩⟩]).counts =
      [("#abc", 2)] := by
  have h := (hashtag_key_spec "ABC" "abc" (by decide)).2.2.2
  rw [h]
  decide

/-! ## Lemmas on splitting and joining, for the date parser -/

lemma splitOnCh_ne_nil (sep : Char) (l : List Char) : splitOnCh sep l ≠ [] := by
  cases l with
  | nil => simp [splitOnCh]
  | cons c cs =>
    simp only [splitOnCh]
    split
    · simp
    · split <;> simp

lemma splitOnCh_append (sep : Char) (t l : List Char) (h : ∀ c ∈ t, c ≠ sep) :
    splitOnCh sep (t ++ l) =
      (t ++ (splitOnCh sep l).headD []) :: (splitOnCh sep l).tail := by
  induction t with
  | nil =>
    simp only [List.nil_append]
    obtain ⟨x, xs, hx⟩ := List.exists_cons_of_ne_nil (splitOnCh_ne_nil sep l)
    rw [hx]
    simp
  | cons c t' ih =>
    have hc : c ≠ sep := h c (List.mem_cons_self c t')
    simp only [List.cons_append, splitOnCh, if_neg hc]
    rw [show t'.append l = t' ++ l from rfl,
      ih (fun x hx => h x (List.mem_cons_of_mem _ hx))]

lemma splitOnCh_joinWith (sep : Char) (ts : List (List Char)) (hne : ts ≠ [])
    (h : ∀ t ∈ ts, ∀ c ∈ t, c ≠ sep) :
    splitOnCh sep (joinWith sep ts) = ts := by
  induction ts with
  | nil => exact absurd rfl hne
  | cons t rest ih =>
    cases rest with
    | nil =>
      show splitOnCh sep t = [t]
      have happ := splitOnCh_append sep t [] (h t (List.mem_cons_self t []))
      simpa [splitOnCh] using happ
    | cons t₂ rest₂ =>
      show splitOnCh sep (t ++ sep :: joinWith sep (t₂ :: rest₂)) = t :: t₂ :: rest₂
      rw [splitOnCh_append sep t _ (h t (List.mem_cons_self t _))]
      have hX : splitOnCh sep (sep :: joinWith sep (t₂ :: rest₂)) =
          [] :: splitOnCh sep (joinWith sep (t₂ :: rest₂)) := by
        simp [splitOnCh]
      rw [hX]
      rw [show ([] :: splitOnCh sep (joinWith sep (t₂ :: rest₂))).headD [] =
          [] from rfl,
        show ([] :: splitOnCh sep (joinWith sep (t₂ :: rest₂))).tail =
          splitOnCh sep (joinWith sep (t₂ :: rest₂)) from rfl]
      rw [ih (by simp) (fun x hx c hc => h x (List.mem_cons_of_mem _ hx) c hc)]
      simp

lemma pySplit_pyJoin (sep : Char) (parts : List String) (hne : parts ≠ [])
    (h : ∀ p ∈ parts, ∀ c ∈ p.data, c ≠ sep) :
    pySplit sep (pyJoin sep parts) = parts := by
  unfold pySplit pyJoin
  rw [show (⟨joinWith sep (parts.map String.data)⟩ : String).data =
      joinWith sep (parts.map String.data) from rfl]
  rw [splitOnCh_joinWith sep (parts.map String.data) (by simpa using hne) ?_]
  · have hid : (String.mk ∘ String.data) = id := funext fun s => rfl
    rw [List.map_map, hid, List.map_id]
  · intro t ht c hc
    obtain ⟨p, hp, rfl⟩ := List.mem_map.mp ht
    exact h p hp c hc

lemma strptimeNoTzTokens_tz (ts : List String) (dt : PyDateTime)
    (h : strptimeNoTzTokens ts = some dt) : dt.tzoffset = none := by
  unfold strptimeNoTzTokens at h
  repeat split at h
  all_goals try simp_all
  all_goals (subst h; rfl)

lemma strptimeWithTzTokens_tz (ts : List String) (dt : PyDateTime)
    (h : strptimeWithTzTokens ts = some dt) : ∃ off, dt.tzoffset = some off := by
  unfold strptimeWithTzTokens at h
  repeat split at h
  all_goals try simp_all
  all_goals (subst h; exact ⟨_, rfl⟩)

/-- C6: in the default mode `parse_twitter_date` splits on spaces, drops the
timezone token (the value standing between the first four tokens and the
last), and parses the remaining tokens with the `'%a %b %d %H:%M:%S %Y'`
layout, producing a naive timestamp (`tzoffset = none`); in strict mode it
parses the full string with the `'%a %b %d %H:%M:%S %z %Y'` layout,
producing a timestamp that carries the parsed offset; a layout mismatch is a
parse error (`none`, by the layout parsers' definitions). -/
theorem parse_twitter_date_spec :
    (∀ s w mo d tm tz y : String,
      pySplit ' ' s = [w, mo, d, tm, tz, y] →
      (∀ c ∈ w.data, c ≠ ' ') → (∀ c ∈ mo.data, c ≠ ' ') →
      (∀ c ∈ d.data, c ≠ ' ') → (∀ c ∈ tm.data, c ≠ ' ') →
      (∀ c ∈ y.data, c ≠ ' ') →
      parse_twitter_date s = strptimeNoTzTokens [w, mo, d, tm, y]) ∧
    (∀ s dt, parse_twitter_date s = some dt → dt.tzoffset = none) ∧
    (∀ s, parse_twitter_date s false = strptimeWithTz s) ∧
    (∀ s dt, parse_twitter_date s false = some dt →
      ∃ off, dt.tzoffset = some off) := by
  refine ⟨?_, ?_, fun _ => rfl, ?_⟩
  · intro s w mo d tm tz y hsplit hw hmo hd htm hy
    have hmem : ∀ p ∈ ([w, mo, d, tm, y] : List String), ∀ c ∈ p.data, c ≠ ' ' := by
      intro p hp c hc
      simp at hp
      rcases hp with rfl | rfl | rfl | rfl | rfl
      · exact hw c hc
      · exact hmo c hc
      · exact hd c hc
      · exact htm c hc
      · exact hy c hc
    show strptimeNoTz (pyJoin ' '
        ((pySplit ' ' s).take 4 ++ [(pySplit ' ' s).getLastD ""])) =
      strptimeNoTzTokens [w, mo, d, tm, y]
    rw [hsplit]
    show strptimeNoTzTokens (pySplit ' ' (pyJoin ' ' [w, mo, d, tm, y])) =
      strptimeNoTzTokens [w, mo, d, tm, y]
    rw [pySplit_pyJoin ' ' [w, mo, d, tm, y] (by simp) hmem]
  · intro s dt h
    have h' : strptimeNoTzTokens (pySplit ' ' (pyJoin ' '
        ((pySplit ' ' s).take 4 ++ [(pySplit ' ' s).getLastD ""]))) = some dt := h
    exact strptimeNoTzTokens_tz _ dt h'
  · intro s dt h
    have h' : strptimeWithTzTokens (pySplit ' ' s) = some dt := h
    exact strptimeWithTzTokens_tz _ dt h'

/-- Witness for the date-parser theorem at the sample Twitter timestamp. -/
theorem parse_twitter_date_witness :
    parse_twitter_date sampleDate =
      strptimeNoTzTokens ["Mon", "Jan", "01", "10:00:00", "2024"] ∧
    parse_twitter_date sampleDate false = strptimeWithTz sampleDate := by
  constructor
  · exact parse_twitter_date_spec.1 sampleDate "Mon" "Jan" "01" "10:00:00"
      "+0000" "2024" (by decide) (by decide) (by decide) (by decide)
      (by decide) (by decide)
  · exact parse_twitter_date_spec.2.2.1 sampleDate

lemma ltDT_midnight_lt (d : PyDateTime) (y mo dd : Nat)
    (hy : d.year = y) (hmo : d.month = mo) (hdd : d.day = dd)
    (hne : ¬(d.hour = 0 ∧ d.minute = 0 ∧ d.second = 0)) :
    ltDT ⟨y, mo, dd, 0, 0, 0, none⟩ d = true := by
  subst hy
  subst hmo
  subst hdd
  by_cases h1 : d.hour = 0
  · by_cases h2 : d.minute = 0
    · by_cases h3 : d.second = 0
      · exact absurd ⟨h1, h2, h3⟩ hne
      · simp [ltDT, h1, h2]
        try omega
    · simp [ltDT, h1, Ne.symm h2]
      try omega
  · simp [ltDT, Ne.symm h1]
    try omega

lemma ltDT_within_day_false (d : PyDateTime) (y mo dd : Nat)
    (hy : d.year = y) (hmo : d.month = mo) (hdd : d.day = dd) :
    ltDT d ⟨y, mo, dd, 0, 0, 0, none⟩ = false := by
  subst hy
  subst hmo
  subst hdd
  by_cases h1 : d.hour = 0
  · by_cases h2 : d.minute = 0
    · simp [ltDT, h1, h2]
    · simp [ltDT, h1, h2]
  · simp [ltDT, h1]

/-- C10: a `--start_date`/`--end_date` value parses to midnight (00:00:00)
of that day, so a record whose `created_at` falls on the end date with any
nonzero time-of-day compares strictly greater than the bound and is
excluded, a record at exactly midnight of the end date is included, and the
analogous midnight bound makes the start date include the whole start day. -/
theorem end_date_midnight_spec :
    (∀ s d, strptimeYmd s = some d →
      d.hour = 0 ∧ d.minute = 0 ∧ d.second = 0) ∧
    (∀ (cfg : Config) (s : ScanState) (t : Tweet) (ca : String) (d : PyDateTime)
        (y mo dd : Nat),
      t.created_at = some ca → parse_twitter_date ca = some d →
      cfg.start_date = none → cfg.end_date = some ⟨y, mo, dd, 0, 0, 0, none⟩ →
      d.year = y → d.month = mo → d.day = dd →
      ¬(d.hour = 0 ∧ d.minute = 0 ∧ d.second = 0) →
      processLine cfg s (.record t) = { s with line_number := s.line_number + 1 }) ∧
    (∀ (cfg : Config) (s : ScanState) (t : Tweet) (ca : String) (d : PyDateTime),
      t.created_at = some ca → parse_twitter_date ca = some d →
      cfg.start_date = none → cfg.end_date = some d →
      d.hour = 0 → d.minute = 0 → d.second = 0 → tagsOK t →
      (processLine cfg s (.record t)).num_tweets = s.num_tweets + 1) ∧
    (∀ (cfg : Config) (s : ScanState) (t : Tweet) (ca : String) (d : PyDateTime)
        (y mo dd : Nat),
      t.created_at = some ca → parse_twitter_date ca = some d →
      cfg.start_date = some ⟨y, mo, dd, 0, 0, 0, none⟩ → cfg.end_date = none →
      d.year = y → d.month = mo → d.day = dd → tagsOK t →
      (processLine cfg s (.record t)).num_tweets = s.num_tweets + 1) := by
  refine ⟨?_, ?_, ?_, ?_⟩
  · intro s d h
    unfold strptimeYmd at h
    repeat split at h
    all_goals try simp_all
    all_goals (subst h; exact ⟨rfl, rfl, rfl⟩)
  · intro cfg s t ca d y mo dd h1 h2 hs he hy hmo hdd hne
    obtain ⟨oca, oents⟩ := t
    have h1' : oca = some ca := h1
    subst h1'
    have hlt := ltDT_midnight_lt d y mo dd hy hmo hdd hne
    exact processLine_filtered cfg s ca oents d h2
      (by simp [passesFilter, hs, he, hlt])
  · intro cfg s t ca d h1 h2 hs he hh hm hsec ht
    obtain ⟨oca, oents⟩ := t
    have h1' : oca = some ca := h1
    subst h1'
    rw [processLine_kept cfg s ca oents d h2
      (by simp [passesFilter, hs, he, ltDT_irrefl]) ht]
  · intro cfg s t ca d y mo dd h1 h2 hs he hy hmo hdd ht
    obtain ⟨oca, oents⟩ := t
    have h1' : oca = some ca := h1
    subst h1'
    have hlt := ltDT_within_day_false d y mo dd hy hmo hdd
    rw [processLine_kept cfg s ca oents d h2
      (by simp [passesFilter, hs, he, hlt]) ht]

/-- Witness for the midnight-bound theorem: with `--end_date` parsed to
midnight of Jan 1 2024, the sample record at 10:00:00 on that day is
excluded. -/
theorem end_date_midnight_witness :
    processLine ⟨none, some ⟨2024, 1, 1, 0, 0, 0, none⟩, 10⟩ initState
      (.record ⟨some sampleDate, none⟩) =
      { initState with line_number := 1 } := by
  exact end_date_midnight_spec.2.1 ⟨none, some ⟨2024, 1, 1, 0, 0, 0, none⟩, 10⟩
    initState ⟨some sampleDate, none⟩ sampleDate sampleDT 2024 1 1 rfl (by decide)
    rfl rfl rfl rfl rfl (by decide)
